import Mathlib

/-!
Verification of the go-orange `ong` peer-set and node logic against its
specification.

The development shallowly embeds the `peerSet` type of the `ong` package
(registerPeer, unregisterPeer, registerSnapExtension, waitSnapExtension,
peer, peersWithoutBlock, peersWithoutTransaction, len, snapLen,
peerWithHighestTD, close), the `Orange.isLocalBlock` and
`Orange.shouldPreserve` reorg-preservation predicates, and the handler's
fast-sync disabling behaviour.

Modelling conventions:
* Go maps become association lists whose list order is the iteration
  order; every operation of the source inserts only after an absence
  check, so append faithfully models map insert on the reachable
  (nodup-keyed) states.
* `big.Int` total difficulties become `Int`.
* The per-peer snap-extension wait channels become the domain of the
  `snapWait` table: an id is in the table exactly while a
  `waitSnapExtension` caller is blocked receiving on its channel, and
  `registerSnapExtension` delivering on the channel is the `delivered`
  result, which removes the id from the table.
* External peer objects (`ong.Peer`, `snap.Peer`) are records of exactly
  the fields the embedded code consumes: id, head hash, total difficulty,
  known-block and known-transaction sets, and the advertised capabilities.
-/

namespace GoOrange

abbrev Hash := Nat

abbrev Addr := Nat

abbrev PeerId := String

/-- The fields of an external `ong.Peer` (ong/protocols/ong) consumed by the
peer set: `ID()`, `Head()` (head hash and total difficulty), `KnownBlock`,
`KnownTransaction`, and `RunningCap` for the snap satellite protocol. -/
structure OngPeer where
  id : PeerId
  headHash : Hash
  td : Int
  knownBlocks : List Hash
  knownTxs : List Hash
  capSnap : Bool
deriving DecidableEq

/-- The fields of an external `snap.Peer` consumed by the peer set: `ID()`
and `RunningCap` for the `ong` base protocol. -/
structure SnapPeer where
  id : PeerId
  capOng : Bool
deriving DecidableEq

/-- The `ongPeer` wrapper of ong/peer.go: an `ong.Peer` plus its optional
snap satellite connection. -/
structure OngPeerEntry where
  peer : OngPeer
  snapExt : Option SnapPeer
deriving DecidableEq

/-- The `peerSet` state of the `ong` package: the peer table, the snap peer
counter, the wait and pending tables for snap extensions, and the closed
flag. -/
structure PeerSet where
  peers : List (PeerId × OngPeerEntry)
  snapPeers : Int
  snapWait : List PeerId
  snapPend : List (PeerId × SnapPeer)
  closed : Bool
deriving DecidableEq

/-- `newPeerSet` creates an empty open peer set. -/
def newPeerSet : PeerSet :=
  { peers := [], snapPeers := 0, snapWait := [], snapPend := [], closed := false }

/-- Result of `registerSnapExtension`: one of its two errors, or a nil
error with the extension either handed to a blocked waiter over its wait
channel or parked in the pending table. -/
inductive RegSnapResult where
  | errSnapWithoutOng
  | errPeerAlreadyRegistered
  | delivered (p : SnapPeer)
  | pended
deriving DecidableEq

/-- Whether the Go function returned a nil error (both the delivery and the
pending paths return nil). -/
def RegSnapResult.isNilError : RegSnapResult → Bool
  | .delivered _ => true
  | .pended => true
  | _ => false

/-- `peerSet.registerSnapExtension`: reject snap without `ong`; reject ids
already registered or already pending; deliver to a blocked waiter when one
exists, otherwise park the extension in the pending table. The closed flag
is never consulted. -/
def PeerSet.registerSnapExtension (ps : PeerSet) (peer : SnapPeer) : RegSnapResult × PeerSet :=
  if !peer.capOng then (.errSnapWithoutOng, ps)
  else if (ps.peers.lookup peer.id).isSome then (.errPeerAlreadyRegistered, ps)
  else if (ps.snapPend.lookup peer.id).isSome then (.errPeerAlreadyRegistered, ps)
  else if ps.snapWait.contains peer.id then
    (.delivered peer, { ps with snapWait := ps.snapWait.filter (fun x => x != peer.id) })
  else
    (.pended, { ps with snapPend := ps.snapPend ++ [(peer.id, peer)] })

/-- Result of `waitSnapExtension`: the (nil, nil) sentinel for peers not
advertising snap, the already-registered error, an immediately returned
pending extension, or the caller blocking on a freshly allocated wait
channel. -/
inductive WaitSnapResult where
  | noExtension
  | errPeerAlreadyRegistered
  | immediate (p : SnapPeer)
  | blocked
deriving DecidableEq

/-- `peerSet.waitSnapExtension`: return the no-extension sentinel when the
peer does not advertise snap; reject ids already registered or already
waiting; return a pending extension immediately; otherwise record the
caller in the wait table and block on the channel. -/
def PeerSet.waitSnapExtension (ps : PeerSet) (peer : OngPeer) : WaitSnapResult × PeerSet :=
  if !peer.capSnap then (.noExtension, ps)
  else if (ps.peers.lookup peer.id).isSome then (.errPeerAlreadyRegistered, ps)
  else if ps.snapWait.contains peer.id then (.errPeerAlreadyRegistered, ps)
  else
    match ps.snapPend.lookup peer.id with
    | some sp => (.immediate sp, { ps with snapPend := ps.snapPend.filter (fun x => x.1 != peer.id) })
    | none => (.blocked, { ps with snapWait := ps.snapWait ++ [peer.id] })

/-- Result of `registerPeer`. -/
inductive RegResult where
  | ok
  | errPeerSetClosed
  | errPeerAlreadyRegistered
deriving DecidableEq

/-- `peerSet.registerPeer`: reject when closed, reject duplicate ids,
otherwise insert the wrapped peer and bump the snap counter when an
extension is attached. -/
def PeerSet.registerPeer (ps : PeerSet) (peer : OngPeer) (ext : Option SnapPeer) : RegResult × PeerSet :=
  if ps.closed then (.errPeerSetClosed, ps)
  else if (ps.peers.lookup peer.id).isSome then (.errPeerAlreadyRegistered, ps)
  else
    (.ok, { ps with
      peers := ps.peers ++ [(peer.id, { peer := peer, snapExt := ext })],
      snapPeers := ps.snapPeers + (if ext.isSome then 1 else 0) })

/-- Result of `unregisterPeer`. -/
inductive UnregResult where
  | ok
  | errPeerNotRegistered
deriving DecidableEq

/-- `peerSet.unregisterPeer`: reject unknown ids, otherwise delete the
entry and decrement the snap counter when the removed peer carried an
extension. -/
def PeerSet.unregisterPeer (ps : PeerSet) (id : PeerId) : UnregResult × PeerSet :=
  match ps.peers.lookup id with
  | none => (.errPeerNotRegistered, ps)
  | some entry =>
    (.ok, { ps with
      peers := ps.peers.filter (fun x => x.1 != id),
      snapPeers := ps.snapPeers - (if entry.snapExt.isSome then 1 else 0) })

/-- `peerSet.peer`: the registered peer with the given id. -/
def PeerSet.peer (ps : PeerSet) (id : PeerId) : Option OngPeerEntry :=
  ps.peers.lookup id

/-- `peerSet.peersWithoutBlock`: the registered peers whose known-block set
does not contain the hash, in iteration order. -/
def PeerSet.peersWithoutBlock (ps : PeerSet) (hash : Hash) : List OngPeerEntry :=
  (ps.peers.filter (fun x => !(x.2.peer.knownBlocks.contains hash))).map (fun x => x.2)

/-- `peerSet.peersWithoutTransaction`: the registered peers whose
known-transaction set does not contain the hash, in iteration order. -/
def PeerSet.peersWithoutTransaction (ps : PeerSet) (hash : Hash) : List OngPeerEntry :=
  (ps.peers.filter (fun x => !(x.2.peer.knownTxs.contains hash))).map (fun x => x.2)

/-- `peerSet.len`: the number of registered `ong` peers. -/
def PeerSet.len (ps : PeerSet) : Nat :=
  ps.peers.length

/-- `peerSet.snapLen`: the snap peer counter. -/
def PeerSet.snapLen (ps : PeerSet) : Int :=
  ps.snapPeers

/-- One iteration of the `peerWithHighestTD` loop: take the current peer
when no best is held yet or its total difficulty strictly exceeds the best
one seen so far. -/
def bestStep (best : Option (OngPeer × Int)) (x : PeerId × OngPeerEntry) : Option (OngPeer × Int) :=
  match best with
  | none => some (x.2.peer, x.2.peer.td)
  | some (bp, btd) => if btd < x.2.peer.td then some (x.2.peer, x.2.peer.td) else some (bp, btd)

/-- `peerSet.peerWithHighestTD`: fold the loop over the peer table in
iteration order and return the best peer, nil when none. -/
def PeerSet.peerWithHighestTD (ps : PeerSet) : Option OngPeer :=
  (ps.peers.foldl bestStep none).map (fun x => x.1)

/-- `peerSet.close`: disconnect every peer (an external side effect) and
mark the set closed; no table is modified. -/
def PeerSet.close (ps : PeerSet) : PeerSet :=
  { ps with closed := true }

/-- Well-formedness of the map model: the peer-table keys are distinct, as
they are for a Go map; every reachable peer set satisfies this. -/
def PeerSet.WF (ps : PeerSet) : Prop :=
  (ps.peers.map Prod.fst).Nodup

/-- The snap-counter invariant: `snapPeers` equals the number of registered
peers carrying a snap extension. -/
def PeerSet.snapInv (ps : PeerSet) : Prop :=
  ps.snapPeers = ((ps.peers.filter (fun x => x.2.snapExt.isSome)).length : Int)

abbrev Block := Nat

/-- The consensus engine as consumed by `isLocalBlock` and
`shouldPreserve`: whether it is the clique (proof-of-authority) engine, and
the `Author(header)` recovery, `none` when it fails. -/
structure Engine where
  isClique : Bool
  author : Block → Option Addr

/-- The fields of the `Orange` service consumed by `isLocalBlock` and
`shouldPreserve`: the engine, the configured ongerbase address and the
`TxPool.Locals` configuration. -/
structure OrangeState where
  engine : Engine
  ongerbase : Addr
  txPoolLocals : List Addr

/-- `Orange.isLocalBlock`: false when author recovery fails; otherwise
whether the author is the ongerbase or listed in `TxPool.Locals`. -/
def isLocalBlock (s : OrangeState) (b : Block) : Bool :=
  match s.engine.author b with
  | none => false
  | some a => a == s.ongerbase || s.txPoolLocals.contains a

/-- `Orange.shouldPreserve`: disabled under the clique engine to avoid the
signer-collusion deadlock, otherwise `isLocalBlock`. -/
def shouldPreserve (s : OrangeState) (b : Block) : Bool :=
  if s.engine.isClique then false
  else isLocalBlock s b

/-- Modelled from the spec: the handler code owning the `fastSync` flag
(the handler and sync files of the `ong` package) is not among the staged
sources, only its test ong/sync_test.go. The events relevant to the flag:
a full block successfully imported from the network, starting a sync
against a (possibly fresh) peer, and the local chain being observed
empty. -/
inductive SyncEvent where
  | importFullBlock
  | startSync
  | chainObservedEmpty
deriving DecidableEq

/-- Modelled from the spec: importing a full block clears the `fastSync`
flag and no event sets it back. -/
def fastSyncStep (fs : Bool) : SyncEvent → Bool
  | .importFullBlock => false
  | .startSync => fs
  | .chainObservedEmpty => fs

/-- Modelled from the spec: at handler creation the flag is enabled exactly
when the local chain is empty. -/
def fastSyncInit (chainEmpty : Bool) : Bool :=
  chainEmpty

/-- The `fastSync` flag after a sequence of events. -/
def fastSyncRun (fs : Bool) (evs : List SyncEvent) : Bool :=
  evs.foldl fastSyncStep fs

/-- A snap-capable `ong` peer used as concrete input. -/
def peerA : OngPeer :=
  { id := "a", headHash := 10, td := 5, knownBlocks := [1], knownTxs := [2], capSnap := true }

/-- A second `ong` peer, same total difficulty as `peerA`, no snap. -/
def peerB : OngPeer :=
  { id := "b", headHash := 11, td := 5, knownBlocks := [], knownTxs := [], capSnap := false }

/-- The snap extension of peer "a". -/
def snapA : SnapPeer :=
  { id := "a", capOng := true }

/-- A peer set with one `waitSnapExtension` caller blocked for id "a". -/
def psWaiting : PeerSet :=
  (newPeerSet.waitSnapExtension peerA).2

/-- A closed peer set that still contains peer "a". -/
def psClosedWithA : PeerSet :=
  ((newPeerSet.registerPeer peerA none).2).close

/-- A peer set where the snap extension of "a" arrived first and the `ong`
peer "a" was then registered without it, leaving the extension pending. -/
def psPendThenReg : PeerSet :=
  (((newPeerSet.registerSnapExtension snapA).2).registerPeer peerA none).2

/-- A peer set with the two equally-weighted peers "a" and "b". -/
def psBest : PeerSet :=
  (((newPeerSet.registerPeer peerA none).2).registerPeer peerB none).2

/-! ## Helper lemmas about the association-list map model -/

theorem contains_iff_mem {α : Type} [BEq α] [LawfulBEq α] (l : List α) (a : α) :
    l.contains a = true ↔ a ∈ l :=
  List.elem_iff

theorem lookup_none_iff {β : Type} (l : List (PeerId × β)) (a : PeerId) :
    l.lookup a = none ↔ ∀ x ∈ l, x.1 ≠ a := by
  induction l with
  | nil => simp [List.lookup]
  | cons hd tl ih =>
    obtain ⟨k, v⟩ := hd
    rw [List.lookup_cons]
    by_cases h : a = k
    · subst h
      simp
    · have hbeq : (a == k) = false := beq_eq_false_iff_ne.mpr h
      rw [hbeq]
      simp only [List.mem_cons]
      constructor
      · intro htl x hx
        rcases hx with rfl | hx
        · exact fun hk => h hk.symm
        · exact ih.mp htl x hx
      · intro hall
        exact ih.mpr fun x hx => hall x (Or.inr hx)

theorem lookup_append_none {β : Type} (l : List (PeerId × β)) (a : PeerId) (v : β)
    (h : l.lookup a = none) : (l ++ [(a, v)]).lookup a = some v := by
  induction l with
  | nil => simp [List.lookup]
  | cons hd tl ih =>
    obtain ⟨k, w⟩ := hd
    rw [List.cons_append, List.lookup_cons] at *
    cases hbeq : a == k with
    | true =>
      rw [hbeq] at h
      simp at h
    | false =>
      rw [hbeq] at h
      exact ih h

theorem lookup_filter_ne {β : Type} (l : List (PeerId × β)) (a : PeerId) :
    (l.filter (fun x => x.1 != a)).lookup a = none := by
  rw [lookup_none_iff]
  intro x hx
  have hp := List.of_mem_filter hx
  exact bne_iff_ne.mp hp

theorem erase_filter_count (l : List (PeerId × OngPeerEntry)) (a : PeerId) (e : OngPeerEntry)
    (hnd : (l.map Prod.fst).Nodup) (hl : l.lookup a = some e) :
    ((l.filter (fun x => x.1 != a)).filter (fun x => x.2.snapExt.isSome)).length
      + (if e.snapExt.isSome then 1 else 0)
      = (l.filter (fun x => x.2.snapExt.isSome)).length := by
  induction l with
  | nil => simp [List.lookup] at hl
  | cons hd tl ih =>
    obtain ⟨k, v⟩ := hd
    simp only [List.map_cons, List.nodup_cons] at hnd
    rw [List.lookup_cons] at hl
    cases hbeq : a == k with
    | true =>
      rw [hbeq] at hl
      have hve : v = e := by simpa using hl
      have hak : a = k := eq_of_beq hbeq
      have htl : tl.filter (fun x => x.1 != a) = tl := by
        rw [List.filter_eq_self]
        intro x hx
        refine bne_iff_ne.mpr fun hxa => hnd.1 ?_
        have hx1 : x.1 ∈ tl.map Prod.fst := List.mem_map_of_mem Prod.fst hx
        rw [hxa, hak] at hx1
        exact hx1
      subst hve
      subst hak
      simp only [List.filter_cons, htl]
      have hhd : ((a, v).1 != a) = false := by simp
      rw [hhd]
      cases hse : v.snapExt.isSome <;> simp [hse]
    | false =>
      rw [hbeq] at hl
      have hne : a ≠ k := ne_of_beq_false hbeq
      have ihv := ih hnd.2 hl
      have hka : ((k, v).1 != a) = true := bne_iff_ne.mpr fun h => hne h.symm
      have h1 : ((k, v) :: tl).filter (fun x => x.1 != a)
          = (k, v) :: tl.filter (fun x => x.1 != a) := by
        rw [List.filter_cons, if_pos hka]
      rw [h1]
      cases hse : v.snapExt.isSome
      case false =>
        have h2 : ((k, v) :: tl.filter (fun x => x.1 != a)).filter (fun x => x.2.snapExt.isSome)
            = (tl.filter (fun x => x.1 != a)).filter (fun x => x.2.snapExt.isSome) := by
          rw [List.filter_cons, if_neg (by simp [hse])]
        have h3 : ((k, v) :: tl).filter (fun x => x.2.snapExt.isSome)
            = tl.filter (fun x => x.2.snapExt.isSome) := by
          rw [List.filter_cons, if_neg (by simp [hse])]
        rw [h2, h3]
        exact ihv
      case true =>
        have h2 : ((k, v) :: tl.filter (fun x => x.1 != a)).filter (fun x => x.2.snapExt.isSome)
            = (k, v) :: (tl.filter (fun x => x.1 != a)).filter (fun x => x.2.snapExt.isSome) := by
          rw [List.filter_cons, if_pos (by simp [hse])]
        have h3 : ((k, v) :: tl).filter (fun x => x.2.snapExt.isSome)
            = (k, v) :: tl.filter (fun x => x.2.snapExt.isSome) := by
          rw [List.filter_cons, if_pos (by simp [hse])]
        rw [h2, h3, List.length_cons, List.length_cons]
        omega

theorem contains_filter_ne (l : List PeerId) (a : PeerId) :
    (l.filter (fun x => x != a)).contains a = false := by
  cases hx : (l.filter (fun x => x != a)).contains a
  case false => rfl
  case true =>
    have hmem := (contains_iff_mem _ _).mp hx
    have hp := @List.of_mem_filter _ (fun x => x != a) a l hmem
    exact ((bne_iff_ne.mp hp) rfl).elim

/-! ## The claims -/

/-- C1: fast-sync is one-way over the process lifetime: on an empty local
chain the flag starts enabled, and after a full block has been imported
the flag is false at the end of every event sequence containing the
import, whatever operations (new syncs against fresh peers, the chain
observed empty again) come before or after. -/
theorem fastSync_one_way :
    fastSyncInit true = true ∧
    ∀ (fs : Bool) (pre post : List SyncEvent),
      fastSyncRun fs (pre ++ SyncEvent.importFullBlock :: post) = false := by
  refine ⟨rfl, fun fs pre post => ?_⟩
  have hfalse : ∀ evs : List SyncEvent, fastSyncRun false evs = false := by
    intro evs
    induction evs with
    | nil => rfl
    | cons e tl ih => cases e <;> simpa [fastSyncRun, fastSyncStep] using ih
  have h1 : fastSyncRun fs (pre ++ SyncEvent.importFullBlock :: post)
      = fastSyncRun false post := by
    simp [fastSyncRun, List.foldl_append, fastSyncStep]
  rw [h1]
  exact hfalse post

/-- C4: unregisterPeer fails with errPeerNotRegistered exactly when the id
is unknown, leaving the set unchanged in that case; on success it removes
the peer and decrements the snap counter exactly when the removed peer
carried an extension; afterwards the id is gone, so a repeated removal
fails with errPeerNotRegistered without further change. -/
theorem unregisterPeer_spec (ps : PeerSet) (id : PeerId) :
    (ps.peers.lookup id = none → ps.unregisterPeer id = (.errPeerNotRegistered, ps)) ∧
    ((ps.unregisterPeer id).1 = .errPeerNotRegistered → ps.peers.lookup id = none) ∧
    (∀ e, ps.peers.lookup id = some e →
      (ps.unregisterPeer id).1 = .ok ∧
      (ps.unregisterPeer id).2.peers = ps.peers.filter (fun x => x.1 != id) ∧
      (ps.unregisterPeer id).2.snapPeers
        = ps.snapPeers - (if e.snapExt.isSome then 1 else 0) ∧
      (ps.unregisterPeer id).2.peers.lookup id = none) := by
  cases h : ps.peers.lookup id with
  | none =>
    have hres : ps.unregisterPeer id = (.errPeerNotRegistered, ps) := by
      unfold PeerSet.unregisterPeer
      rw [h]
    exact ⟨fun _ => hres, fun _ => rfl, fun e he => Option.noConfusion he⟩
  | some v =>
    have hres : ps.unregisterPeer id = (.ok, { ps with
        peers := ps.peers.filter (fun x => x.1 != id),
        snapPeers := ps.snapPeers - (if v.snapExt.isSome then 1 else 0) }) := by
      unfold PeerSet.unregisterPeer
      rw [h]
    refine ⟨fun hn => Option.noConfusion hn, fun hcontra => ?_, fun e he => ?_⟩
    · rw [hres] at hcontra
      simp at hcontra
    · injection he with he'
      subst he'
      refine ⟨by rw [hres], by rw [hres], by rw [hres], ?_⟩
      rw [hres]
      exact lookup_filter_ne ps.peers id

/-- C4 witness: on a set holding only peer "a" with a snap extension,
unregistering "b" fails with the set unchanged, and unregistering "a"
succeeds, empties the table, and decrements the snap counter to 0. -/
theorem unregisterPeer_spec_witness :
    ((newPeerSet.registerPeer peerA (some snapA)).2.unregisterPeer "b")
      = (.errPeerNotRegistered, (newPeerSet.registerPeer peerA (some snapA)).2) ∧
    ((newPeerSet.registerPeer peerA (some snapA)).2.unregisterPeer "a").1 = .ok ∧
    ((newPeerSet.registerPeer peerA (some snapA)).2.unregisterPeer "a").2.snapPeers = 0 := by
  have h1 := unregisterPeer_spec (newPeerSet.registerPeer peerA (some snapA)).2 "b"
  have h2 := unregisterPeer_spec (newPeerSet.registerPeer peerA (some snapA)).2 "a"
  obtain ⟨hok, _, hsnap, _⟩ := h2.2.2 { peer := peerA, snapExt := some snapA } rfl
  exact ⟨h1.1 rfl, hok, by rw [hsnap]; rfl⟩

/-- C6: peersWithoutBlock returns exactly the registered peers whose
known-block set lacks the hash, and peersWithoutTransaction exactly those
whose known-transaction set lacks it; only registered peers appear. -/
theorem peersWithout_spec (ps : PeerSet) (hash : Hash) (p : OngPeerEntry) :
    (p ∈ ps.peersWithoutBlock hash ↔
      ((∃ id, (id, p) ∈ ps.peers) ∧ p.peer.knownBlocks.contains hash = false)) ∧
    (p ∈ ps.peersWithoutTransaction hash ↔
      ((∃ id, (id, p) ∈ ps.peers) ∧ p.peer.knownTxs.contains hash = false)) := by
  constructor
  · unfold PeerSet.peersWithoutBlock
    rw [List.mem_map]
    constructor
    · rintro ⟨x, hx, rfl⟩
      obtain ⟨hmem, hf⟩ := List.mem_filter.mp hx
      exact ⟨⟨x.1, hmem⟩, by simpa using hf⟩
    · rintro ⟨⟨id, hmem⟩, hcont⟩
      exact ⟨(id, p), List.mem_filter.mpr ⟨hmem, by simpa using hcont⟩, rfl⟩
  · unfold PeerSet.peersWithoutTransaction
    rw [List.mem_map]
    constructor
    · rintro ⟨x, hx, rfl⟩
      obtain ⟨hmem, hf⟩ := List.mem_filter.mp hx
      exact ⟨⟨x.1, hmem⟩, by simpa using hf⟩
    · rintro ⟨⟨id, hmem⟩, hcont⟩
      exact ⟨(id, p), List.mem_filter.mpr ⟨hmem, by simpa using hcont⟩, rfl⟩

/-- C8: shouldPreserve is true exactly when the engine is not clique and
the recovered author is the configured ongerbase or listed in
TxPool.Locals; under clique it is false for every block. -/
theorem shouldPreserve_spec (s : OrangeState) (b : Block) :
    shouldPreserve s b = true ↔
      (s.engine.isClique = false ∧
        ∃ a, s.engine.author b = some a ∧
          (a = s.ongerbase ∨ a ∈ s.txPoolLocals)) := by
  unfold shouldPreserve isLocalBlock
  cases hc : s.engine.isClique
  · cases ha : s.engine.author b with
    | none => simp [ha]
    | some a => simp [ha, Bool.or_eq_true, contains_iff_mem]
  · simp [hc]

/-- C3 counterexample: on a closed set that still contains peer "a",
registerPeer for id "a" fails with errPeerSetClosed, not with
errPeerAlreadyRegistered, although a peer with the same id is registered:
the AlreadyRegistered clause of the claim fails whenever the set is also
closed. -/
theorem registerPeer_closed_overrides :
    (psClosedWithA.peers.lookup "a").isSome = true ∧
    psClosedWithA.closed = true ∧
    (psClosedWithA.registerPeer peerA none).1 = RegResult.errPeerSetClosed ∧
    (psClosedWithA.registerPeer peerA none).1 ≠ RegResult.errPeerAlreadyRegistered := by
  exact ⟨rfl, rfl, rfl, by decide⟩

/-- C3 (amended): registerPeer fails with errPeerSetClosed whenever the
set is closed; it fails with errPeerAlreadyRegistered whenever the set is
open and the id is already registered (on a closed set the Closed error
takes priority); both failures leave the set unchanged; on success the
peer is immediately in the table and returned by the selection queries. -/
theorem registerPeer_spec (ps : PeerSet) (p : OngPeer) (ext : Option SnapPeer) :
    (ps.closed = true → ps.registerPeer p ext = (.errPeerSetClosed, ps)) ∧
    (ps.closed = false → (ps.peers.lookup p.id).isSome = true →
      ps.registerPeer p ext = (.errPeerAlreadyRegistered, ps)) ∧
    (ps.closed = false → ps.peers.lookup p.id = none →
      (ps.registerPeer p ext).1 = .ok ∧
      (ps.registerPeer p ext).2.peer p.id = some { peer := p, snapExt := ext } ∧
      ∀ hash : Hash, p.knownBlocks.contains hash = false →
        { peer := p, snapExt := ext } ∈ (ps.registerPeer p ext).2.peersWithoutBlock hash) := by
  refine ⟨?_, ?_, ?_⟩
  · intro hc
    unfold PeerSet.registerPeer
    rw [if_pos hc]
  · intro hc hs
    unfold PeerSet.registerPeer
    rw [if_neg (by simp [hc]), if_pos hs]
  · intro hc hn
    have hres : ps.registerPeer p ext = (.ok, { ps with
        peers := ps.peers ++ [(p.id, { peer := p, snapExt := ext })],
        snapPeers := ps.snapPeers + (if ext.isSome then 1 else 0) }) := by
      unfold PeerSet.registerPeer
      rw [if_neg (by simp [hc]), if_neg (by simp [hn])]
    refine ⟨by rw [hres], ?_, ?_⟩
    · unfold PeerSet.peer
      rw [hres]
      exact lookup_append_none ps.peers p.id _ hn
    · intro hash hcont
      rw [hres]
      unfold PeerSet.peersWithoutBlock
      refine List.mem_map.mpr ⟨(p.id, { peer := p, snapExt := ext }), ?_, rfl⟩
      refine List.mem_filter.mpr ⟨List.mem_append_right _ (by simp), ?_⟩
      simpa using hcont

/-- C3 witness: registering "a" in the fresh set succeeds and the peer is
immediately visible; registering "b" in the closed set fails with
errPeerSetClosed and no change. -/
theorem registerPeer_spec_witness :
    (newPeerSet.registerPeer peerA none).1 = RegResult.ok ∧
    (newPeerSet.registerPeer peerA none).2.peer "a" = some { peer := peerA, snapExt := none } ∧
    psClosedWithA.registerPeer peerB none = (RegResult.errPeerSetClosed, psClosedWithA) := by
  have h := registerPeer_spec newPeerSet peerA none
  have h2 := registerPeer_spec psClosedWithA peerB none
  obtain ⟨hok, hpeer, _⟩ := h.2.2 rfl rfl
  exact ⟨hok, hpeer, h2.1 rfl⟩

/-- C7 counterexample: the snap extension of "a" arrived first and the ong
peer "a" was then registered without it, leaving the extension pending
while the id is registered; waitSnapExtension then returns the
already-registered error, not the pending extension. -/
theorem waitSnapExtension_pending_not_returned :
    peerA.capSnap = true ∧
    (psPendThenReg.snapPend.lookup "a").isSome = true ∧
    (psPendThenReg.waitSnapExtension peerA).1 = WaitSnapResult.errPeerAlreadyRegistered ∧
    (psPendThenReg.waitSnapExtension peerA).1 ≠ WaitSnapResult.immediate snapA := by
  exact ⟨rfl, rfl, rfl, by decide⟩

/-- C7 (amended): for a peer not advertising snap, waitSnapExtension
returns the no-extension sentinel immediately with no error and the set
unchanged; for a snap-advertising peer that is not already registered and
not already waiting, a pending extension is returned immediately and
removed from the pending table. -/
theorem waitSnapExtension_spec (ps : PeerSet) (p : OngPeer) :
    (p.capSnap = false → ps.waitSnapExtension p = (.noExtension, ps)) ∧
    (∀ sp, p.capSnap = true → (ps.peers.lookup p.id).isSome = false →
      ps.snapWait.contains p.id = false → ps.snapPend.lookup p.id = some sp →
      ps.waitSnapExtension p =
        (.immediate sp,
          { ps with snapPend := ps.snapPend.filter (fun x => x.1 != p.id) })) := by
  constructor
  · intro hcap
    unfold PeerSet.waitSnapExtension
    rw [if_pos (by simp [hcap])]
  · intro sp hcap hreg hwait hpend
    unfold PeerSet.waitSnapExtension
    rw [if_neg (by simp [hcap]), if_neg (by simp [hreg]),
      if_neg (by intro hc; rw [hwait] at hc; exact Bool.noConfusion hc), hpend]

/-- C7 witness: peer "b" advertises no snap and gets the sentinel back
unchanged; with the extension of "a" pending in a fresh set, peer "a"
receives it immediately. -/
theorem waitSnapExtension_spec_witness :
    newPeerSet.waitSnapExtension peerB = (WaitSnapResult.noExtension, newPeerSet) ∧
    ((newPeerSet.registerSnapExtension snapA).2.waitSnapExtension peerA).1
      = WaitSnapResult.immediate snapA := by
  have h := waitSnapExtension_spec newPeerSet peerB
  have h2 := waitSnapExtension_spec (newPeerSet.registerSnapExtension snapA).2 peerA
  refine ⟨h.1 rfl, ?_⟩
  rw [h2.2 snapA rfl rfl rfl rfl]

/-- C10 counterexample: after close, for the snap peer "a" advertising ong
whose id is neither registered nor pending but for which a waiter exists,
registerSnapExtension returns a nil error yet records nothing in the
pending set (it delivers to the waiter instead). -/
theorem registerSnapExtension_wait_no_pend :
    snapA.capOng = true ∧
    psWaiting.close.peers.lookup "a" = none ∧
    psWaiting.close.snapPend.lookup "a" = none ∧
    (psWaiting.close.registerSnapExtension snapA).1.isNilError = true ∧
    (psWaiting.close.registerSnapExtension snapA).2.snapPend.lookup "a" = none := by
  exact ⟨rfl, rfl, rfl, rfl, rfl⟩

/-- C10 (amended): registerSnapExtension never reads the closed flag, so
after close it still returns a nil error for every snap peer advertising
the ong base protocol whose id is neither registered nor pending; the
peer is recorded in the pending set when no waiter for the id exists, and
is otherwise handed to the waiting caller instead. -/
theorem registerSnapExtension_after_close (ps : PeerSet) (sp : SnapPeer) :
    sp.capOng = true → ps.close.peers.lookup sp.id = none →
    ps.close.snapPend.lookup sp.id = none →
    ((ps.close.registerSnapExtension sp).1.isNilError = true ∧
      (ps.close.snapWait.contains sp.id = false →
        (ps.close.registerSnapExtension sp).1 = .pended ∧
        (ps.close.registerSnapExtension sp).2.snapPend.lookup sp.id = some sp) ∧
      (ps.close.snapWait.contains sp.id = true →
        (ps.close.registerSnapExtension sp).1 = .delivered sp)) := by
  intro hcap hreg hpend
  cases hwait : ps.close.snapWait.contains sp.id
  case false =>
    have hres : ps.close.registerSnapExtension sp
        = (.pended, { ps.close with snapPend := ps.close.snapPend ++ [(sp.id, sp)] }) := by
      unfold PeerSet.registerSnapExtension
      rw [if_neg (by simp [hcap]), if_neg (by simp [hreg]), if_neg (by simp [hpend]),
        if_neg (by intro hc; rw [hwait] at hc; exact Bool.noConfusion hc)]
    refine ⟨by rw [hres]; rfl, fun _ => ⟨by rw [hres], ?_⟩, fun hcontra => ?_⟩
    · rw [hres]
      exact lookup_append_none _ sp.id sp hpend
    · exact Bool.noConfusion hcontra
  case true =>
    have hres : ps.close.registerSnapExtension sp
        = (.delivered sp, { ps.close with
            snapWait := ps.close.snapWait.filter (fun x => x != sp.id) }) := by
      unfold PeerSet.registerSnapExtension
      rw [if_neg (by simp [hcap]), if_neg (by simp [hreg]), if_neg (by simp [hpend]),
        if_pos hwait]
    exact ⟨by rw [hres]; rfl, fun hcontra => Bool.noConfusion hcontra, fun _ => by rw [hres]⟩

/-- C10 witness: on the closed fresh set, registering the snap peer "a"
succeeds and parks it in the pending set. -/
theorem registerSnapExtension_after_close_witness :
    (newPeerSet.close.registerSnapExtension snapA).1.isNilError = true ∧
    (newPeerSet.close.registerSnapExtension snapA).1 = RegSnapResult.pended ∧
    (newPeerSet.close.registerSnapExtension snapA).2.snapPend.lookup "a" = some snapA := by
  have h := registerSnapExtension_after_close newPeerSet snapA rfl rfl rfl
  obtain ⟨hnil, hrec, _⟩ := h
  obtain ⟨hp, hl⟩ := hrec rfl
  exact ⟨hnil, hp, hl⟩

/-- C2 counterexample: a waitSnapExtension caller blocked for id "a" (the
id is in the wait table) is still there after close: close unblocks no
waiter, so a caller can remain blocked forever after close. -/
theorem close_leaves_waiter_blocked :
    (newPeerSet.waitSnapExtension peerA).1 = WaitSnapResult.blocked ∧
    psWaiting.snapWait = ["a"] ∧
    psWaiting.close.snapWait = ["a"] := by
  exact ⟨rfl, rfl, rfl⟩

/-- C2 (amended): close leaves the wait table unchanged, so it unblocks no
waitSnapExtension caller; a blocked caller returns exactly when
registerSnapExtension delivers the matching extension on its channel,
which still works after close and removes the id from the wait table. -/
theorem waitSnapExtension_close_spec (ps : PeerSet) (sp : SnapPeer) :
    ps.close.snapWait = ps.snapWait ∧
    (sp.capOng = true → ps.close.peers.lookup sp.id = none →
      ps.close.snapPend.lookup sp.id = none →
      ps.close.snapWait.contains sp.id = true →
      (ps.close.registerSnapExtension sp).1 = RegSnapResult.delivered sp ∧
      (ps.close.registerSnapExtension sp).2.snapWait.contains sp.id = false) := by
  refine ⟨rfl, fun hcap hreg hpend hwait => ?_⟩
  have hres : ps.close.registerSnapExtension sp
      = (.delivered sp, { ps.close with
          snapWait := ps.close.snapWait.filter (fun x => x != sp.id) }) := by
    unfold PeerSet.registerSnapExtension
    rw [if_neg (by simp [hcap]), if_neg (by simp [hreg]), if_neg (by simp [hpend]),
      if_pos hwait]
  refine ⟨by rw [hres], ?_⟩
  rw [hres]
  exact contains_filter_ne ps.close.snapWait sp.id

/-- C2 witness: with the caller for "a" blocked and the set closed,
delivering the snap extension of "a" unblocks it and clears the wait
entry. -/
theorem waitSnapExtension_close_spec_witness :
    psWaiting.close.snapWait = psWaiting.snapWait ∧
    (psWaiting.close.registerSnapExtension snapA).1 = RegSnapResult.delivered snapA ∧
    (psWaiting.close.registerSnapExtension snapA).2.snapWait.contains "a" = false := by
  have h := waitSnapExtension_close_spec psWaiting snapA
  obtain ⟨hd, hc⟩ := h.2 rfl rfl rfl rfl
  exact ⟨h.1, hd, hc⟩

theorem filter_singleton_entry (idp : PeerId) (p : OngPeer) (ext : Option SnapPeer) :
    ([(idp, ({ peer := p, snapExt := ext } : OngPeerEntry))].filter
      (fun x => x.2.snapExt.isSome)).length = if ext.isSome then 1 else 0 := by
  cases ext <;> rfl

theorem lookup_none_not_mem_keys {β : Type} {l : List (PeerId × β)} {a : PeerId}
    (h : l.lookup a = none) : a ∉ l.map Prod.fst := by
  intro hmem
  obtain ⟨x, hx, hx1⟩ := List.mem_map.mp hmem
  exact (lookup_none_iff l a).mp h x hx hx1

theorem bestStep_fold_spec (l : List (PeerId × OngPeerEntry)) (bp : OngPeer) :
    ∃ q, l.foldl bestStep (some (bp, bp.td)) = some (q, q.td) ∧
      ((q = bp ∧ ∀ x ∈ l, x.2.peer.td ≤ bp.td) ∨
        ∃ l₁ e l₂, l = l₁ ++ e :: l₂ ∧ e.2.peer = q ∧ bp.td < q.td ∧
          (∀ x ∈ l₁, x.2.peer.td < q.td) ∧ (∀ x ∈ l₂, x.2.peer.td ≤ q.td)) := by
  induction l generalizing bp with
  | nil => exact ⟨bp, rfl, Or.inl ⟨rfl, by simp⟩⟩
  | cons a t ih =>
    by_cases hlt : bp.td < a.2.peer.td
    · have hstep : bestStep (some (bp, bp.td)) a = some (a.2.peer, a.2.peer.td) := by
        simp only [bestStep]
        rw [if_pos hlt]
      obtain ⟨q, hq, hcase⟩ := ih a.2.peer
      refine ⟨q, by rw [List.foldl_cons, hstep]; exact hq, Or.inr ?_⟩
      rcases hcase with ⟨rfl, hall⟩ | ⟨l₁, e, l₂, rfl, hq', hlt', h₁, h₂⟩
      · exact ⟨[], a, t, rfl, rfl, hlt, by simp, hall⟩
      · refine ⟨a :: l₁, e, l₂, rfl, hq', lt_trans hlt hlt', ?_, h₂⟩
        intro x hx
        rcases List.mem_cons.mp hx with rfl | hx'
        · exact hlt'
        · exact h₁ x hx'
    · have hle : a.2.peer.td ≤ bp.td := not_lt.mp hlt
      have hstep : bestStep (some (bp, bp.td)) a = some (bp, bp.td) := by
        simp only [bestStep]
        rw [if_neg hlt]
      obtain ⟨q, hq, hcase⟩ := ih bp
      refine ⟨q, by rw [List.foldl_cons, hstep]; exact hq, ?_⟩
      rcases hcase with ⟨rfl, hall⟩ | ⟨l₁, e, l₂, rfl, hq', hlt', h₁, h₂⟩
      · refine Or.inl ⟨rfl, ?_⟩
        intro x hx
        rcases List.mem_cons.mp hx with rfl | hx'
        · exact hle
        · exact hall x hx'
      · refine Or.inr ⟨a :: l₁, e, l₂, rfl, hq', hlt', ?_, h₂⟩
        intro x hx
        rcases List.mem_cons.mp hx with rfl | hx'
        · exact lt_of_le_of_lt hle hlt'
        · exact h₁ x hx'

/-- C5: peerWithHighestTD returns nil exactly on an empty set; otherwise
it returns a registered peer whose advertised total difficulty is at least
that of every registered peer, and among equally-weighted peers the first
encountered in iteration order: every peer iterated before it has strictly
smaller total difficulty. -/
theorem peerWithHighestTD_spec (ps : PeerSet) :
    (ps.peerWithHighestTD = none ↔ ps.peers = []) ∧
    (∀ p, ps.peerWithHighestTD = some p →
      ∃ l₁ e l₂, ps.peers = l₁ ++ e :: l₂ ∧ e.2.peer = p ∧
        (∀ x ∈ l₁, x.2.peer.td < p.td) ∧ (∀ x ∈ ps.peers, x.2.peer.td ≤ p.td)) := by
  cases hps : ps.peers with
  | nil =>
    have hnone : ps.peerWithHighestTD = none := by
      unfold PeerSet.peerWithHighestTD
      rw [hps]
      rfl
    exact ⟨⟨fun _ => rfl, fun _ => hnone⟩, fun p hp => by
      rw [hnone] at hp
      exact Option.noConfusion hp⟩
  | cons a t =>
    have hfold : ps.peers.foldl bestStep none
        = t.foldl bestStep (some (a.2.peer, a.2.peer.td)) := by
      rw [hps]
      rfl
    obtain ⟨q, hq, hcase⟩ := bestStep_fold_spec t a.2.peer
    have hsome : ps.peerWithHighestTD = some q := by
      unfold PeerSet.peerWithHighestTD
      rw [hfold, hq]
      rfl
    constructor
    · constructor
      · intro hcontra
        rw [hsome] at hcontra
        exact Option.noConfusion hcontra
      · intro hcontra
        exact List.noConfusion hcontra
    · intro p hp
      rw [hsome] at hp
      injection hp with hp'
      subst hp'
      rcases hcase with ⟨rfl, hall⟩ | ⟨l₁, e, l₂, rfl, hq', hlt', h₁, h₂⟩
      · refine ⟨[], a, t, rfl, rfl, by simp, ?_⟩
        intro x hx
        rcases List.mem_cons.mp hx with rfl | hx'
        · exact le_refl _
        · exact hall x hx'
      · refine ⟨a :: l₁, e, l₂, rfl, hq', ?_, ?_⟩
        · intro x hx
          rcases List.mem_cons.mp hx with rfl | hx'
          · exact hlt'
          · exact h₁ x hx'
        · intro x hx
          rcases List.mem_cons.mp hx with rfl | hx'
          · exact le_of_lt hlt'
          · rcases List.mem_append.mp hx' with hx₁ | hx₂
            · exact le_of_lt (h₁ x hx₁)
            · rcases List.mem_cons.mp hx₂ with rfl | hx₃
              · rw [hq']
              · exact h₂ x hx₃

/-- C5 witness: in a set holding the equally-weighted peers "a" then "b",
peerWithHighestTD returns peer "a", the first encountered, and the
characterization instantiates. -/
theorem peerWithHighestTD_spec_witness :
    psBest.peerWithHighestTD = some peerA ∧
    ∃ l₁ e l₂, psBest.peers = l₁ ++ e :: l₂ ∧ e.2.peer = peerA ∧
      (∀ x ∈ l₁, x.2.peer.td < peerA.td) ∧ (∀ x ∈ psBest.peers, x.2.peer.td ≤ peerA.td) := by
  have h := peerWithHighestTD_spec psBest
  exact ⟨by rfl, h.2 peerA (by rfl)⟩

/-- C9: on every well-formed peer set whose snapPeers counter equals the
number of registered peers carrying a snap extension, each peer-set
operation (registerPeer, unregisterPeer, registerSnapExtension,
waitSnapExtension, close) preserves well-formedness and this counter
invariant, and snapLen is at most len. -/
theorem peerSet_snap_invariant (ps : PeerSet) (hwf : ps.WF) (hinv : ps.snapInv) :
    (∀ p ext, ((ps.registerPeer p ext).2).WF ∧ ((ps.registerPeer p ext).2).snapInv) ∧
    (∀ id, ((ps.unregisterPeer id).2).WF ∧ ((ps.unregisterPeer id).2).snapInv) ∧
    (∀ sp, ((ps.registerSnapExtension sp).2).WF ∧ ((ps.registerSnapExtension sp).2).snapInv) ∧
    (∀ p, ((ps.waitSnapExtension p).2).WF ∧ ((ps.waitSnapExtension p).2).snapInv) ∧
    (ps.close.WF ∧ ps.close.snapInv) ∧
    ps.snapLen ≤ (ps.len : Int) := by
  have htrans : ∀ q : PeerSet, q.peers = ps.peers → q.snapPeers = ps.snapPeers →
      q.WF ∧ q.snapInv := by
    intro q h1 h2
    constructor
    · unfold PeerSet.WF
      rw [h1]
      exact hwf
    · unfold PeerSet.snapInv
      rw [h1, h2]
      exact hinv
  refine ⟨?_, ?_, ?_, ?_, htrans ps.close rfl rfl, ?_⟩
  · intro p ext
    by_cases hc : ps.closed
    · have hres : ps.registerPeer p ext = (.errPeerSetClosed, ps) := by
        unfold PeerSet.registerPeer
        rw [if_pos hc]
      rw [hres]
      exact ⟨hwf, hinv⟩
    · cases hl : ps.peers.lookup p.id with
      | some v =>
        have hres : ps.registerPeer p ext = (.errPeerAlreadyRegistered, ps) := by
          unfold PeerSet.registerPeer
          rw [if_neg hc, if_pos (by rw [hl]; rfl)]
        rw [hres]
        exact ⟨hwf, hinv⟩
      | none =>
        have hres : ps.registerPeer p ext = (.ok, { ps with
            peers := ps.peers ++ [(p.id, { peer := p, snapExt := ext })],
            snapPeers := ps.snapPeers + (if ext.isSome then 1 else 0) }) := by
          unfold PeerSet.registerPeer
          rw [if_neg hc, if_neg (by rw [hl]; simp)]
        rw [hres]
        constructor
        · unfold PeerSet.WF
          simp only [List.map_append, List.map_cons, List.map_nil]
          rw [List.nodup_append]
          exact ⟨hwf, by simp, by
            rw [List.disjoint_singleton]
            exact lookup_none_not_mem_keys hl⟩
        · unfold PeerSet.snapInv at hinv ⊢
          dsimp only
          rw [List.filter_append, List.length_append, filter_singleton_entry, hinv]
          cases ext <;> simp
  · intro id
    cases hl : ps.peers.lookup id with
    | none =>
      have hres : ps.unregisterPeer id = (.errPeerNotRegistered, ps) := by
        unfold PeerSet.unregisterPeer
        rw [hl]
      rw [hres]
      exact ⟨hwf, hinv⟩
    | some v =>
      have hres : ps.unregisterPeer id = (.ok, { ps with
          peers := ps.peers.filter (fun x => x.1 != id),
          snapPeers := ps.snapPeers - (if v.snapExt.isSome then 1 else 0) }) := by
        unfold PeerSet.unregisterPeer
        rw [hl]
      rw [hres]
      constructor
      · unfold PeerSet.WF
        exact List.Nodup.sublist (List.Sublist.map Prod.fst (List.filter_sublist _)) hwf
      · unfold PeerSet.snapInv at hinv ⊢
        dsimp only
        have hcount := erase_filter_count ps.peers id v hwf hl
        cases hse : v.snapExt.isSome
        case false =>
          rw [hse, if_neg Bool.false_ne_true] at hcount
          rw [if_neg Bool.false_ne_true, hinv]
          omega
        case true =>
          rw [hse, if_pos rfl] at hcount
          rw [if_pos rfl, hinv]
          omega
  · intro sp
    refine htrans _ ?_ ?_
    · unfold PeerSet.registerSnapExtension
      repeat' split
      all_goals rfl
    · unfold PeerSet.registerSnapExtension
      repeat' split
      all_goals rfl
  · intro p
    refine htrans _ ?_ ?_
    · unfold PeerSet.waitSnapExtension
      repeat' split
      all_goals rfl
    · unfold PeerSet.waitSnapExtension
      repeat' split
      all_goals rfl
  · unfold PeerSet.snapLen PeerSet.len
    unfold PeerSet.snapInv at hinv
    rw [hinv]
    exact_mod_cast List.length_filter_le _ ps.peers

/-- C9 witness: the fresh set is well-formed with a correct counter;
registering peer "a" with its snap extension preserves the invariant, and
snapLen is at most len. -/
theorem peerSet_snap_invariant_witness :
    ((newPeerSet.registerPeer peerA (some snapA)).2).WF ∧
    ((newPeerSet.registerPeer peerA (some snapA)).2).snapInv ∧
    newPeerSet.snapLen ≤ (newPeerSet.len : Int) := by
  have h := peerSet_snap_invariant newPeerSet
    (by unfold PeerSet.WF; decide) (by unfold PeerSet.snapInv; decide)
  obtain ⟨hwf, hinv⟩ := h.1 peerA (some snapA)
  exact ⟨hwf, hinv, h.2.2.2.2.2⟩

end GoOrange
